import Mathlib

/-!
Verification of the crossword-generation core (`crossword_generator`).

This file shallowly embeds the Rust source:
  * `src/word.rs`       — `Position`, `Direction`, `Word`
  * `src/placed_word.rs`— `WordBoundingBox`, `PlacedWord` and its geometry
  * `src/crossword.rs`  — `WordCompatibilitySettings`, `Crossword`, constraints
  * `src/generator.rs`  — the sorted backtracking generator

Modelling conventions:
  * `i16` coordinates become `Int`; the `as u16` reinterpretation of an `i16`
    is modelled exactly as `(· .emod 65536).toNat` (`i16AsU16`), and the
    `i16` subtraction inside `normalize` is modelled exactly as
    two's-complement wrap into `[-32768, 32767]` (`i16Wrap`).
  * `u16` word lengths are modelled as plain `Nat` list lengths; theorems
    that depend on cast behaviour carry `≤ 32767` range hypotheses, the
    regime in which the `len() as u16` / `as i16` casts are the identity.
  * `BTreeSet` is modelled as a `List`; set insertion becomes appending,
    which is faithful on the API-reachable states (no duplicate elements),
    and claims that depend on set semantics carry explicit distinctness
    hypotheses.
  * Rust's `Result<(), CrosswordError>` on `&mut self` methods becomes
    explicit state passing: the model returns the new state together with
    an `Option CrosswordError`.
-/

/-- `src/word.rs` `Position`: a signed 16-bit grid coordinate, modelled on `Int`. -/
structure Position where
  x : Int
  y : Int
deriving DecidableEq, Repr

/-- `src/word.rs` `Direction`: `Right` (default) or `Down`. -/
inductive Direction where
  | Right : Direction
  | Down : Direction
deriving DecidableEq, Repr

/-- `src/word.rs` `Direction::opposite`. -/
def Direction.opposite : Direction → Direction
  | Direction.Right => Direction.Down
  | Direction.Down => Direction.Right

/-- `src/word.rs` `Word`: an unplaced word with an optional direction lock. -/
structure Word (α : Type) where
  value : List α
  dir : Option Direction
deriving DecidableEq, Repr

/-- `src/placed_word.rs` `WordBoundingBox`: `x y : i16`, `w h : u16`. -/
structure WordBoundingBox where
  x : Int
  y : Int
  w : Nat
  h : Nat
deriving DecidableEq, Repr

/-- `src/placed_word.rs` `WordBoundingBox::intersects`. -/
def WordBoundingBox.intersects (a b : WordBoundingBox) : Bool :=
  (decide (a.x < b.x + (b.w : Int)) && decide (a.x + (a.w : Int) > b.x)) &&
  (decide (a.y < b.y + (b.h : Int)) && decide (a.y + (a.h : Int) > b.y))

/-- `src/placed_word.rs` `WordBoundingBox::sides_touch`. -/
def WordBoundingBox.sides_touch (a b : WordBoundingBox) : Bool :=
  ((decide (a.x + (a.w : Int) > b.x) && decide (a.x < b.x + (b.w : Int))) &&
   (decide (a.y + (a.h : Int) = b.y) || decide (b.y + (b.h : Int) = a.y))) ||
  ((decide (a.y + (a.h : Int) > b.y) && decide (a.y < b.y + (b.h : Int))) &&
   (decide (a.x + (a.w : Int) = b.x) || decide (b.x + (b.w : Int) = a.x)))

/-- `src/placed_word.rs` `WordBoundingBox::corners_touch`. -/
def WordBoundingBox.corners_touch (a b : WordBoundingBox) : Bool :=
  (decide (a.x = b.x + (b.w : Int)) && decide (a.y = b.y + (b.h : Int))) ||
  (decide (a.x + (a.w : Int) = b.x) && decide (a.y = b.y + (b.h : Int))) ||
  (decide (a.x + (a.w : Int) = b.x) && decide (a.y + (a.h : Int) = b.y)) ||
  (decide (a.x = b.x + (b.w : Int)) && decide (a.y + (a.h : Int) = b.y))

/-- `src/placed_word.rs` `PlacedWord`: a value placed at a position in a direction. -/
structure PlacedWord (α : Type) where
  position : Position
  direction : Direction
  value : List α
deriving DecidableEq, Repr

/-- Reinterpretation of an `i16` value as `u16` (`as u16`), exact on `[0, 65535]`. -/
def i16AsU16 (d : Int) : Nat := (d % 65536).toNat

/-- Two's-complement wrap of an `i16` arithmetic result into `[-32768, 32767]`,
the release-mode semantics of an overflowing `i16` subtraction. -/
def i16Wrap (d : Int) : Int := (d + 32768) % 65536 - 32768

namespace PlacedWord

variable {α : Type} [DecidableEq α]

/-- `src/placed_word.rs` `PlacedWord::get_bounding_box` (lengths in the exact regime). -/
def get_bounding_box (self : PlacedWord α) : WordBoundingBox :=
  match self.direction with
  | Direction.Right => { x := self.position.x, y := self.position.y, w := self.value.length, h := 1 }
  | Direction.Down => { x := self.position.x, y := self.position.y, w := 1, h := self.value.length }

/-- `src/placed_word.rs` `PlacedWord::get_parallel_coordinate`. -/
def get_parallel_coordinate (self : PlacedWord α) : Int :=
  match self.direction with
  | Direction.Right => self.position.y
  | Direction.Down => self.position.x

/-- `src/placed_word.rs` `PlacedWord::intersects`. -/
def intersects (self other : PlacedWord α) : Bool :=
  self.get_bounding_box.intersects other.get_bounding_box

/-- `src/placed_word.rs` `PlacedWord::sides_touch`. -/
def sides_touch (self other : PlacedWord α) : Bool :=
  self.get_bounding_box.sides_touch other.get_bounding_box

/-- `src/placed_word.rs` `PlacedWord::corners_touch`. -/
def corners_touch (self other : PlacedWord α) : Bool :=
  self.get_bounding_box.corners_touch other.get_bounding_box

/-- `src/placed_word.rs` `PlacedWord::side_touches_side`. -/
def side_touches_side (self other : PlacedWord α) : Bool :=
  decide (self.direction = other.direction) &&
  self.sides_touch other &&
  decide (self.get_parallel_coordinate ≠ other.get_parallel_coordinate)

/-- `src/placed_word.rs` `PlacedWord::side_touches_head`. -/
def side_touches_head (self other : PlacedWord α) : Bool :=
  decide (self.direction ≠ other.direction) &&
  self.sides_touch other

/-- `src/placed_word.rs` `PlacedWord::head_touches_head`. -/
def head_touches_head (self other : PlacedWord α) : Bool :=
  decide (self.direction = other.direction) &&
  self.sides_touch other &&
  decide (self.get_parallel_coordinate = other.get_parallel_coordinate)

/-- `src/placed_word.rs` `PlacedWord::get_intersection_indices`. -/
def get_intersection_indices (self other : PlacedWord α) : Option (Nat × Nat) :=
  if self.intersects other = false then none
  else if self.direction = other.direction then none
  else
    match self.direction with
    | Direction.Right =>
        some (i16AsU16 (other.position.x - self.position.x),
              i16AsU16 (self.position.y - other.position.y))
    | Direction.Down =>
        some (i16AsU16 (other.position.y - self.position.y),
              i16AsU16 (self.position.x - other.position.x))

/-- `src/placed_word.rs` `PlacedWord::calculate_possible_ways_to_add_word`:
all placements of `word` crossing `self`, as a list (the source collects them
into a `BTreeSet`; multiplicities and order are irrelevant to the claims). -/
def calculate_possible_ways_to_add_word (self : PlacedWord α) (word : Word α) :
    List (PlacedWord α) :=
  let locked : Bool :=
    match word.dir with
    | some d => decide (d = self.direction)
    | none => false
  if locked then []
  else
    let w := word.value
    let commonChars := w.filter (fun c => self.value.contains c)
    commonChars.flatMap (fun c =>
      ((List.range w.length).filter (fun i => decide (w.get? i = some c))).flatMap
        (fun wordInd =>
          ((List.range self.value.length).filter
              (fun i => decide (self.value.get? i = some c))).map (fun selfInd =>
            { position :=
                match self.direction with
                | Direction.Right =>
                    { x := self.position.x + selfInd, y := self.position.y - wordInd }
                | Direction.Down =>
                    { x := self.position.x - wordInd, y := self.position.y + selfInd },
              direction := self.direction.opposite,
              value := word.value })))

end PlacedWord

/-- `src/crossword.rs` `CrosswordError`. -/
inductive CrosswordError where
  | CantAddWord : CrosswordError
  | WordAlreadyExists : CrosswordError
deriving DecidableEq, Repr

/-- `src/crossword.rs` `WordCompatibilitySettings`. -/
structure WordCompatibilitySettings where
  side_by_side : Bool
  head_by_head : Bool
  side_by_head : Bool
  corner_by_corner : Bool
deriving DecidableEq, Repr

/-- `src/crossword.rs` `impl Default for WordCompatibilitySettings`. -/
def WordCompatibilitySettings.default : WordCompatibilitySettings :=
  { side_by_side := false, head_by_head := false, side_by_head := false,
    corner_by_corner := true }

/-- `src/crossword.rs` `WordCompatibilitySettings::are_words_compatible`.
The `unwrap` of `get_intersection_indices` in the source is modelled by the
`match`; the `none` branch is unreachable (proved below). -/
def WordCompatibilitySettings.are_words_compatible {α : Type} [DecidableEq α]
    (s : WordCompatibilitySettings) (first second : PlacedWord α) : Bool :=
  if first.corners_touch second && !s.corner_by_corner then false
  else if first.direction = second.direction then
    if first.head_touches_head second && !s.head_by_head then false
    else if first.side_touches_side second && !s.side_by_side then false
    else if first.intersects second then false
    else true
  else
    if first.side_touches_head second && !s.side_by_head then false
    else if first.intersects second then
      match first.get_intersection_indices second with
      | some (firstInd, secondInd) =>
          let firstChar := first.value.get? firstInd
          let secondChar := second.value.get? secondInd
          firstChar.isSome && secondChar.isSome && decide (firstChar = secondChar)
      | none => false
    else true

example :
    WordCompatibilitySettings.default.are_words_compatible
      (⟨⟨0, 0⟩, Direction.Right, [0, 1, 2]⟩ : PlacedWord Nat)
      (⟨⟨2, 0⟩, Direction.Down, [2, 3]⟩ : PlacedWord Nat) = true := by decide

example :
    WordCompatibilitySettings.default.are_words_compatible
      (⟨⟨0, 0⟩, Direction.Right, [0, 1, 2]⟩ : PlacedWord Nat)
      (⟨⟨2, 0⟩, Direction.Down, [9, 3]⟩ : PlacedWord Nat) = false := by decide

example :
    (⟨⟨0, 1⟩, Direction.Right, [104, 101, 108, 108, 111]⟩ : PlacedWord Nat).get_intersection_indices
      (⟨⟨4, 0⟩, Direction.Down, [119, 111, 114, 108, 100]⟩ : PlacedWord Nat) = some (4, 1) := by
  decide

/-- `src/crossword.rs` `CrosswordConstraint`. -/
inductive CrosswordConstraint where
  | None : CrosswordConstraint
  | MaxLength : Nat → CrosswordConstraint
  | MaxHeight : Nat → CrosswordConstraint
  | MaxArea : Nat → CrosswordConstraint
deriving DecidableEq, Repr

/-- `src/crossword.rs` `Crossword`: the `BTreeSet` of placed words is modelled
as a `List` (see the header comment). -/
structure Crossword (α : Type) where
  words : List (PlacedWord α)
  word_compatibility_settings : WordCompatibilitySettings
deriving DecidableEq, Repr

namespace Crossword

variable {α : Type} [DecidableEq α]

/-- `src/crossword.rs` `Crossword::new`. -/
def new (s : WordCompatibilitySettings) : Crossword α :=
  { words := [], word_compatibility_settings := s }

/-- `src/crossword.rs` `Crossword::normalize`: shift all positions by the
componentwise minimum, computed by folding `min` from `i16::MAX`. -/
def normalize (cw : Crossword α) : Crossword α :=
  let minX := cw.words.foldl (fun m w => min m w.position.x) 32767
  let minY := cw.words.foldl (fun m w => min m w.position.y) 32767
  { cw with
    words := cw.words.map (fun w =>
      { w with position := { x := i16Wrap (w.position.x - minX),
                             y := i16Wrap (w.position.y - minY) } }) }

/-- `src/crossword.rs` `Crossword::can_word_be_added`: compatibility against
every placed word (no value check). -/
def can_word_be_added (cw : Crossword α) (word : PlacedWord α) : Bool :=
  cw.words.all (fun w => cw.word_compatibility_settings.are_words_compatible w word)

/-- `src/crossword.rs` `Crossword::find_word`: first placed word with the value. -/
def find_word (cw : Crossword α) (word : List α) : Option (PlacedWord α) :=
  cw.words.find? (fun w => decide (w.value = word))

/-- `src/crossword.rs` `Crossword::add_word_unnormalized`, with the mutated
state returned (unchanged on error). -/
def add_word_unnormalized (cw : Crossword α) (word : PlacedWord α) :
    Crossword α × Option CrosswordError :=
  if (cw.find_word word.value).isSome then (cw, some CrosswordError.WordAlreadyExists)
  else if !cw.can_word_be_added word then (cw, some CrosswordError.CantAddWord)
  else ({ cw with words := cw.words ++ [word] }, none)

/-- `src/crossword.rs` `Crossword::add_word`: unnormalized add, then normalize
(only on success — the `?` operator returns early on error). -/
def add_word (cw : Crossword α) (word : PlacedWord α) :
    Crossword α × Option CrosswordError :=
  let r := cw.add_word_unnormalized word
  match r.2 with
  | some e => (r.1, some e)
  | none => (r.1.normalize, none)

/-- The `try_for_each` loop inside `src/crossword.rs` `Crossword::add_words`:
unnormalized adds, stopping at the first error. -/
def add_words_aux : Crossword α → List (PlacedWord α) → Crossword α × Option CrosswordError
  | cw, [] => (cw, none)
  | cw, w :: ws =>
    let r := cw.add_word_unnormalized w
    match r.2 with
    | some e => (r.1, some e)
    | none => add_words_aux r.1 ws

/-- `src/crossword.rs` `Crossword::add_words`: adds each word unnormalized,
normalizes exactly once at the end, and returns the first error if any. -/
def add_words (cw : Crossword α) (ws : List (PlacedWord α)) :
    Crossword α × Option CrosswordError :=
  let r := add_words_aux cw ws
  (r.1.normalize, r.2)

/-- `src/crossword.rs` `Crossword::remove_word`: remove the word found by
value (if any) and normalize; the `Bool` reports whether a word was removed. -/
def remove_word (cw : Crossword α) (word : List α) : Crossword α × Bool :=
  match cw.find_word word with
  | some w => (({ cw with words := cw.words.erase w } : Crossword α).normalize, true)
  | none => (cw, false)

/-- The per-word loop of `src/crossword.rs` `Crossword::contains_crossword`:
`off` is the offset fixed by the first matched pair. -/
def containsAux (self : Crossword α) : List (PlacedWord α) → Option (Int × Int) → Bool
  | [], _ => true
  | ow :: rest, off =>
    match self.find_word ow.value with
    | none => false
    | some cur =>
      if cur.direction ≠ ow.direction then false
      else
        let d : Int × Int :=
          (cur.position.x - ow.position.x, cur.position.y - ow.position.y)
        match off with
        | none => self.containsAux rest (some d)
        | some o => if o ≠ d then false else self.containsAux rest (some o)

/-- `src/crossword.rs` `Crossword::contains_crossword`. -/
def contains_crossword (self other : Crossword α) : Bool :=
  if other.words.length > self.words.length then false
  else self.containsAux other.words none

/-- `src/crossword.rs` `Crossword::calculate_possible_ways_to_add_word`:
one default candidate on the empty layout, otherwise the union over placed
words filtered by `can_word_be_added`. -/
def calculate_possible_ways_to_add_word (cw : Crossword α) (word : Word α) :
    List (PlacedWord α) :=
  if cw.words.isEmpty then
    [{ position := { x := 0, y := 0 }, direction := Direction.Right, value := word.value }]
  else
    (cw.words.flatMap (fun cur => cur.calculate_possible_ways_to_add_word word)).filter
      (fun w => cw.can_word_be_added w)

/-- `src/crossword.rs` `Crossword::get_size`: the enclosing rectangle of the
layout, with the final `as u16` casts modelled by `i16AsU16`. -/
def get_size (cw : Crossword α) : Nat × Nat :=
  let mc := cw.words.foldl (fun (m : Int × Int) w =>
    let a := max m.1 (w.position.x + 1)
    let b := max m.2 (w.position.y + 1)
    match w.direction with
    | Direction.Right => (max a (w.position.x + (w.value.length : Int)), b)
    | Direction.Down => (a, max b (w.position.y + (w.value.length : Int)))) (0, 0)
  (i16AsU16 mc.1, i16AsU16 mc.2)

end Crossword

/-- `src/crossword.rs` `CrosswordConstraint::check`. -/
def CrosswordConstraint.check {α : Type} [DecidableEq α]
    (c : CrosswordConstraint) (cw : Crossword α) : Bool :=
  match c with
  | CrosswordConstraint.None => true
  | CrosswordConstraint.MaxLength n => decide ((cw.get_size).1 ≤ n)
  | CrosswordConstraint.MaxHeight n => decide ((cw.get_size).2 ≤ n)
  | CrosswordConstraint.MaxArea n => decide ((cw.get_size).1 * (cw.get_size).2 ≤ n)

/-- `src/crossword.rs` `CrosswordConstraint::recoverable`: all current
constraint kinds are non-recoverable. -/
def CrosswordConstraint.recoverable : CrosswordConstraint → Bool
  | CrosswordConstraint.None => false
  | CrosswordConstraint.MaxLength _ => false
  | CrosswordConstraint.MaxHeight _ => false
  | CrosswordConstraint.MaxArea _ => false

/-- `src/crossword.rs` `CrosswordSettings`. -/
structure CrosswordSettings where
  constraints : List CrosswordConstraint
deriving DecidableEq, Repr

/-- `src/crossword.rs` `CrosswordSettings::check_recoverable_constraints`. -/
def CrosswordSettings.check_recoverable_constraints {α : Type} [DecidableEq α]
    (s : CrosswordSettings) (cw : Crossword α) : Bool :=
  (s.constraints.filter (fun c => c.recoverable)).all (fun c => c.check cw)

/-- `src/crossword.rs` `CrosswordSettings::check_nonrecoverables_constraints`. -/
def CrosswordSettings.check_nonrecoverables_constraints {α : Type} [DecidableEq α]
    (s : CrosswordSettings) (cw : Crossword α) : Bool :=
  (s.constraints.filter (fun c => !c.recoverable)).all (fun c => c.check cw)

example :
    (Crossword.new WordCompatibilitySettings.default : Crossword Nat).add_words
      [⟨⟨0, 3⟩, Direction.Right, [104, 101, 108, 108, 111]⟩,
       ⟨⟨2, 0⟩, Direction.Down, [119, 111, 114, 108, 100]⟩]
    = (⟨[⟨⟨0, 3⟩, Direction.Right, [104, 101, 108, 108, 111]⟩,
         ⟨⟨2, 0⟩, Direction.Down, [119, 111, 114, 108, 100]⟩],
        WordCompatibilitySettings.default⟩, none) := by decide

/-- `src/generator.rs` `CrosswordGeneratorSettings`. -/
structure CrosswordGeneratorSettings where
  crossword_settings : CrosswordSettings
  word_compatibility_settings : WordCompatibilitySettings
deriving DecidableEq, Repr

/-- `src/generator.rs` `CrosswordGenerator::sorted_generator_impl`, with the
asynchronous demand machinery erased: the demand requests (`Stop` /
`Count` / `All`) only truncate the emitted sequence, so the model emits every
layout the recursion reaches (the `All` behaviour).  The recursion consumes
one remaining word per level, so `fuel = remained.length` at the entry point
makes the fuel-indexed recursion exact.  The result is the pair (emitted
layouts, final base set); bases are kept as a list standing for the
`BTreeSet full_created_crossword_bases`. -/
def sortedEmitAux {α : Type} [DecidableEq α] (cs : CrosswordSettings) :
    Nat → Crossword α → List (Word α) → List (Crossword α) →
    List (Crossword α) × List (Crossword α)
  | 0, _, _, bases => ([], bases)
  | fuel + 1, cw, remained, bases =>
    if cs.check_nonrecoverables_constraints cw = false then ([], bases)
    else if bases.any (fun b => cw.contains_crossword b) then ([], bases)
    else if remained.isEmpty then
      ((if cs.check_recoverable_constraints cw then [cw] else []), bases)
    else
      remained.foldl (fun acc w =>
        let rem' := remained.erase w
        (cw.calculate_possible_ways_to_add_word w).foldl (fun acc step =>
          let cw' := (cw.add_word step).1
          let r := sortedEmitAux cs fuel cw' rem' acc.2
          (acc.1 ++ r.1,
           (r.2.filter (fun b => b.contains_crossword cw' = false)) ++ [cw'])) acc)
        (([] : List (Crossword α)), bases)

/-- Entry point of the sorted strategy (`crossword_stream_sorted`): empty
normalized layout, all words remaining, no bases.  The recursion places one
word per level and emits at the leaf, so `ws.length + 1` fuel is exact. -/
def sortedGeneratorEmitted {α : Type} [DecidableEq α]
    (gs : CrosswordGeneratorSettings) (ws : List (Word α)) : List (Crossword α) :=
  (sortedEmitAux gs.crossword_settings (ws.length + 1)
    (Crossword.new gs.word_compatibility_settings) ws []).1

example :
    sortedGeneratorEmitted ⟨⟨[]⟩, WordCompatibilitySettings.default⟩
      [(⟨[0, 1], none⟩ : Word Nat)]
    = [⟨[⟨⟨0, 0⟩, Direction.Right, [0, 1]⟩], WordCompatibilitySettings.default⟩] := by
  decide

/-! ## Helper lemmas -/

theorem bool_eq_of_iff {a b : Bool} (h : a = true ↔ b = true) : a = b := by
  cases a <;> cases b <;> simp_all

theorem i16Wrap_eq {d : Int} (h1 : -32768 ≤ d) (h2 : d ≤ 32767) : i16Wrap d = d := by
  unfold i16Wrap
  omega

theorem WordBoundingBox.intersects_comm (a b : WordBoundingBox) :
    a.intersects b = b.intersects a := by
  apply bool_eq_of_iff
  simp only [WordBoundingBox.intersects, Bool.and_eq_true, decide_eq_true_eq]
  omega

theorem WordBoundingBox.sides_touch_comm (a b : WordBoundingBox) :
    a.sides_touch b = b.sides_touch a := by
  apply bool_eq_of_iff
  simp only [WordBoundingBox.sides_touch, Bool.and_eq_true, Bool.or_eq_true,
    decide_eq_true_eq]
  omega

theorem WordBoundingBox.corners_touch_comm (a b : WordBoundingBox) :
    a.corners_touch b = b.corners_touch a := by
  apply bool_eq_of_iff
  simp only [WordBoundingBox.corners_touch, Bool.and_eq_true, Bool.or_eq_true,
    decide_eq_true_eq]
  omega

namespace PlacedWord

variable {α : Type}

theorem word_intersects_comm (A B : PlacedWord α) : A.intersects B = B.intersects A :=
  WordBoundingBox.intersects_comm _ _

theorem word_sides_touch_comm (A B : PlacedWord α) : A.sides_touch B = B.sides_touch A :=
  WordBoundingBox.sides_touch_comm _ _

theorem word_corners_touch_comm (A B : PlacedWord α) : A.corners_touch B = B.corners_touch A :=
  WordBoundingBox.corners_touch_comm _ _

theorem side_touches_side_comm (A B : PlacedWord α) :
    A.side_touches_side B = B.side_touches_side A := by
  unfold side_touches_side
  rw [word_sides_touch_comm]
  apply bool_eq_of_iff
  simp only [Bool.and_eq_true, decide_eq_true_eq]
  constructor
  · rintro ⟨⟨h1, h2⟩, h3⟩; exact ⟨⟨h1.symm, h2⟩, fun h => h3 h.symm⟩
  · rintro ⟨⟨h1, h2⟩, h3⟩; exact ⟨⟨h1.symm, h2⟩, fun h => h3 h.symm⟩

theorem head_touches_head_comm (A B : PlacedWord α) :
    A.head_touches_head B = B.head_touches_head A := by
  unfold head_touches_head
  rw [word_sides_touch_comm]
  apply bool_eq_of_iff
  simp only [Bool.and_eq_true, decide_eq_true_eq]
  constructor
  · rintro ⟨⟨h1, h2⟩, h3⟩; exact ⟨⟨h1.symm, h2⟩, h3.symm⟩
  · rintro ⟨⟨h1, h2⟩, h3⟩; exact ⟨⟨h1.symm, h2⟩, h3.symm⟩

theorem side_touches_head_comm (A B : PlacedWord α) :
    A.side_touches_head B = B.side_touches_head A := by
  unfold side_touches_head
  rw [word_sides_touch_comm]
  apply bool_eq_of_iff
  simp only [Bool.and_eq_true, decide_eq_true_eq, ne_eq]
  constructor
  · rintro ⟨h1, h2⟩; exact ⟨fun h => h1 h.symm, h2⟩
  · rintro ⟨h1, h2⟩; exact ⟨fun h => h1 h.symm, h2⟩

theorem get_intersection_indices_comm (A B : PlacedWord α) :
    A.get_intersection_indices B = (B.get_intersection_indices A).map Prod.swap := by
  unfold get_intersection_indices
  rw [word_intersects_comm]
  cases hi : B.intersects A
  · simp
  · by_cases hd : A.direction = B.direction
    · simp [hd]
    · have hd' : ¬ B.direction = A.direction := fun h => hd h.symm
      simp only [Bool.true_eq_false, if_false, hd, hd', if_neg, if_false]
      cases hA : A.direction <;> cases hB : B.direction <;> simp_all [Prod.swap]

end PlacedWord

theorem are_words_compatible_comm {α : Type} [DecidableEq α]
    (s : WordCompatibilitySettings) (A B : PlacedWord α) :
    s.are_words_compatible A B = s.are_words_compatible B A := by
  unfold WordCompatibilitySettings.are_words_compatible
  simp only [PlacedWord.word_corners_touch_comm A B, PlacedWord.head_touches_head_comm A B,
    PlacedWord.side_touches_side_comm A B, PlacedWord.side_touches_head_comm A B,
    PlacedWord.word_intersects_comm A B, PlacedWord.get_intersection_indices_comm A B]
  by_cases h0 : (B.corners_touch A && !s.corner_by_corner) = true
  · simp [h0]
  · by_cases hd : A.direction = B.direction
    · simp [h0, hd]
    · have hd' : ¬ B.direction = A.direction := fun h => hd h.symm
      by_cases h1 : (B.side_touches_head A && !s.side_by_head) = true
      · simp [h0, hd, hd', h1]
      · by_cases h2 : B.intersects A = true
        · simp only [h0, hd, hd', h1, h2, Bool.false_eq_true, if_false, if_true,
            if_neg, not_false_iff]
          generalize B.get_intersection_indices A = o
          cases o with
          | none => simp
          | some p =>
            obtain ⟨j, i⟩ := p
            simp only [Option.map_some', Prod.swap]
            apply bool_eq_of_iff
            simp only [Bool.and_eq_true, decide_eq_true_eq]
            constructor
            · rintro ⟨⟨ha, hb⟩, hc⟩; exact ⟨⟨hb, ha⟩, hc.symm⟩
            · rintro ⟨⟨ha, hb⟩, hc⟩; exact ⟨⟨hb, ha⟩, hc.symm⟩
        · simp [h0, hd, hd', h1, h2]

theorem bool_eq_false {b : Bool} (h : ¬ b = true) : b = false := by
  cases b
  · rfl
  · exact absurd rfl h

theorem guard_implies {b c : Bool} (h : ¬ (b && !c) = true) : b = true → c = true := by
  intro hb
  cases hc : c
  · exact absurd (by simp [hb, hc]) h
  · rfl

theorem not_guard {b c : Bool} (h : b = true → c = true) : ¬ (b && !c) = true := by
  intro hx
  rw [Bool.and_eq_true] at hx
  obtain ⟨h1, h2⟩ := hx
  rw [h h1] at h2
  simp at h2

theorem get?_isSome_iff {α : Type} {l : List α} {n : Nat} :
    (l.get? n).isSome = true ↔ n < l.length := by
  cases h : l.get? n
  · simp only [Option.isSome_none, Bool.false_eq_true, false_iff, not_lt]
    exact List.get?_eq_none.mp h
  · simp only [Option.isSome_some, true_iff]
    obtain ⟨hlt, -⟩ := List.get?_eq_some.mp h
    exact hlt

theorem gii_eq_some {α : Type} [DecidableEq α] {A B : PlacedWord α}
    (hd : ¬ A.direction = B.direction) (hint : A.intersects B = true) :
    ∃ i j, A.get_intersection_indices B = some (i, j) := by
  unfold PlacedWord.get_intersection_indices
  rw [hint]
  simp only [Bool.true_eq_false, if_false, hd]
  cases A.direction
  · exact ⟨_, _, rfl⟩
  · exact ⟨_, _, rfl⟩

/-- C10: `are_words_compatible` is symmetric, and therefore the one-sided
check in `can_word_be_added` (existing word passed as first argument) equals
the check with the candidate passed as first argument. -/
theorem are_words_compatible_symmetric {α : Type} [DecidableEq α]
    (s : WordCompatibilitySettings) (A B : PlacedWord α)
    (cw : Crossword α) (p : PlacedWord α) :
    s.are_words_compatible A B = s.are_words_compatible B A ∧
    cw.can_word_be_added p =
      cw.words.all (fun w => cw.word_compatibility_settings.are_words_compatible p w) := by
  refine ⟨are_words_compatible_comm s A B, ?_⟩
  apply bool_eq_of_iff
  unfold Crossword.can_word_be_added
  simp only [List.all_eq_true]
  constructor
  · intro h w hw
    rw [are_words_compatible_comm]
    exact h w hw
  · intro h w hw
    rw [are_words_compatible_comm]
    exact h w hw

/-- C3: `are_words_compatible` implements the four-step algorithm of §4.3 of
the specification: corner-touch guard, then for same-direction pairs the
head-head / side-side / overlap rules, and for different-direction pairs the
side-head rule and the crossing-character rule at bounding-box intersections. -/
theorem are_words_compatible_algorithm {α : Type} [DecidableEq α]
    (s : WordCompatibilitySettings) (A B : PlacedWord α) :
    s.are_words_compatible A B = true ↔
      ((A.corners_touch B = true → s.corner_by_corner = true) ∧
       (A.direction = B.direction →
          (A.head_touches_head B = true → s.head_by_head = true) ∧
          (A.side_touches_side B = true → s.side_by_side = true) ∧
          A.intersects B = false) ∧
       (¬ A.direction = B.direction →
          (A.side_touches_head B = true → s.side_by_head = true) ∧
          (A.intersects B = true →
             ∃ i j, A.get_intersection_indices B = some (i, j) ∧
               i < A.value.length ∧ j < B.value.length ∧
               A.value.get? i = B.value.get? j))) := by
  unfold WordCompatibilitySettings.are_words_compatible
  by_cases h0 : (A.corners_touch B && !s.corner_by_corner) = true
  · rw [if_pos h0]
    simp only [Bool.false_eq_true, false_iff]
    rintro ⟨hcc, -, -⟩
    rw [Bool.and_eq_true] at h0
    obtain ⟨hc1, hc2⟩ := h0
    rw [hcc hc1] at hc2
    simp at hc2
  · rw [if_neg h0]
    have hcOK := guard_implies h0
    by_cases hd : A.direction = B.direction
    · rw [if_pos hd]
      constructor
      · intro h
        refine ⟨hcOK, fun _ => ?_, fun hne => absurd hd hne⟩
        by_cases ha : (A.head_touches_head B && !s.head_by_head) = true
        · rw [if_pos ha] at h
          simp at h
        · rw [if_neg ha] at h
          by_cases hb : (A.side_touches_side B && !s.side_by_side) = true
          · rw [if_pos hb] at h
            simp at h
          · rw [if_neg hb] at h
            by_cases hc : A.intersects B = true
            · rw [if_pos hc] at h
              simp at h
            · exact ⟨guard_implies ha, guard_implies hb, bool_eq_false hc⟩
      · rintro ⟨-, hsame, -⟩
        obtain ⟨h1, h2, h3⟩ := hsame hd
        have hint : ¬ A.intersects B = true := by simp [h3]
        rw [if_neg (not_guard h1), if_neg (not_guard h2), if_neg hint]
    · rw [if_neg hd]
      constructor
      · intro h
        refine ⟨hcOK, fun hdd => absurd hdd hd, fun _ => ?_⟩
        by_cases ha : (A.side_touches_head B && !s.side_by_head) = true
        · rw [if_pos ha] at h
          simp at h
        · rw [if_neg ha] at h
          refine ⟨guard_implies ha, fun hint => ?_⟩
          rw [if_pos hint] at h
          obtain ⟨i, j, hg⟩ := gii_eq_some hd hint
          rw [hg] at h
          simp only [Bool.and_eq_true, decide_eq_true_eq, Option.isSome_iff_exists] at h
          obtain ⟨⟨hia, hjb⟩, he⟩ := h
          refine ⟨i, j, hg, ?_, ?_, he⟩
          · obtain ⟨a, ha'⟩ := hia
            obtain ⟨hlt, -⟩ := List.get?_eq_some.mp ha'
            exact hlt
          · obtain ⟨a, ha'⟩ := hjb
            obtain ⟨hlt, -⟩ := List.get?_eq_some.mp ha'
            exact hlt
      · rintro ⟨-, -, hdiff⟩
        obtain ⟨hsth, hintc⟩ := hdiff hd
        rw [if_neg (not_guard hsth)]
        by_cases hint : A.intersects B = true
        · rw [if_pos hint]
          obtain ⟨i, j, hg, hi, hj, he⟩ := hintc hint
          rw [hg]
          simp only [Bool.and_eq_true, decide_eq_true_eq]
          exact ⟨⟨get?_isSome_iff.mpr hi, get?_isSome_iff.mpr hj⟩, he⟩
        · rw [if_neg hint]

theorem i16AsU16_int_eq {d : Int} (h0 : 0 ≤ d) (h1 : d < 65536) :
    (i16AsU16 d : Int) = d := by
  unfold i16AsU16
  rw [Int.emod_eq_of_lt h0 h1, Int.toNat_of_nonneg h0]

/-- C9: whenever `get_intersection_indices A B` returns `some (i, j)`, both
indices are in range — the coordinate differences are non-negative before the
`as u16` cast (so the cast is value-preserving) and `i`, `j` index valid
characters of `A.value` and `B.value` — hence the `unwrap` and the character
lookups inside `are_words_compatible` cannot fail. -/
theorem get_intersection_indices_safe {α : Type} [DecidableEq α]
    (A B : PlacedWord α)
    (hla : A.value.length ≤ 32767) (hlb : B.value.length ≤ 32767) :
    (¬ A.direction = B.direction → A.intersects B = true →
       (A.get_intersection_indices B).isSome = true) ∧
    (∀ i j, A.get_intersection_indices B = some (i, j) →
       i < A.value.length ∧ j < B.value.length ∧
       (A.value.get? i).isSome = true ∧ (B.value.get? j).isSome = true ∧
       (A.direction = Direction.Right →
          0 ≤ B.position.x - A.position.x ∧ 0 ≤ A.position.y - B.position.y ∧
          (i : Int) = B.position.x - A.position.x ∧
          (j : Int) = A.position.y - B.position.y) ∧
       (A.direction = Direction.Down →
          0 ≤ B.position.y - A.position.y ∧ 0 ≤ A.position.x - B.position.x ∧
          (i : Int) = B.position.y - A.position.y ∧
          (j : Int) = A.position.x - B.position.x)) := by
  constructor
  · intro hd hint
    obtain ⟨i, j, hg⟩ := gii_eq_some hd hint
    rw [hg]
    rfl
  · intro i j hg
    by_cases hint : A.intersects B = false
    · unfold PlacedWord.get_intersection_indices at hg
      rw [if_pos hint] at hg
      exact absurd hg (by simp)
    · have hint' : A.intersects B = true := by
        cases h : A.intersects B
        · exact absurd h hint
        · rfl
      by_cases hd : A.direction = B.direction
      · unfold PlacedWord.get_intersection_indices at hg
        rw [if_neg hint, if_pos hd] at hg
        exact absurd hg (by simp)
      · unfold PlacedWord.get_intersection_indices at hg
        rw [if_neg hint, if_neg hd] at hg
        unfold PlacedWord.intersects at hint'
        cases hA : A.direction <;> cases hB : B.direction <;> rw [hA, hB] at hd <;>
          try exact absurd rfl hd
        · -- A Right, B Down
          rw [hA] at hg
          simp only [PlacedWord.get_bounding_box, hA, hB, WordBoundingBox.intersects,
            Bool.and_eq_true, decide_eq_true_eq] at hint'
          obtain ⟨⟨q1, q2⟩, q3, q4⟩ := hint'
          have hd1 : 0 ≤ B.position.x - A.position.x ∧
              B.position.x - A.position.x < (A.value.length : Int) := by omega
          have hd2 : 0 ≤ A.position.y - B.position.y ∧
              A.position.y - B.position.y < (B.value.length : Int) := by omega
          simp only [Option.some.injEq, Prod.mk.injEq] at hg
          obtain ⟨hi', hj'⟩ := hg
          have hiv : (i : Int) = B.position.x - A.position.x := by
            rw [← hi']
            exact i16AsU16_int_eq hd1.1 (by omega)
          have hjv : (j : Int) = A.position.y - B.position.y := by
            rw [← hj']
            exact i16AsU16_int_eq hd2.1 (by omega)
          have hilt : i < A.value.length := by omega
          have hjlt : j < B.value.length := by omega
          refine ⟨hilt, hjlt, get?_isSome_iff.mpr hilt, get?_isSome_iff.mpr hjlt,
            fun _ => ⟨hd1.1, hd2.1, hiv, hjv⟩, fun h => absurd h (by decide)⟩
        · -- A Down, B Right
          rw [hA] at hg
          simp only [PlacedWord.get_bounding_box, hA, hB, WordBoundingBox.intersects,
            Bool.and_eq_true, decide_eq_true_eq] at hint'
          obtain ⟨⟨q1, q2⟩, q3, q4⟩ := hint'
          have hd1 : 0 ≤ B.position.y - A.position.y ∧
              B.position.y - A.position.y < (A.value.length : Int) := by omega
          have hd2 : 0 ≤ A.position.x - B.position.x ∧
              A.position.x - B.position.x < (B.value.length : Int) := by omega
          simp only [Option.some.injEq, Prod.mk.injEq] at hg
          obtain ⟨hi', hj'⟩ := hg
          have hiv : (i : Int) = B.position.y - A.position.y := by
            rw [← hi']
            exact i16AsU16_int_eq hd1.1 (by omega)
          have hjv : (j : Int) = A.position.x - B.position.x := by
            rw [← hj']
            exact i16AsU16_int_eq hd2.1 (by omega)
          have hilt : i < A.value.length := by omega
          have hjlt : j < B.value.length := by omega
          refine ⟨hilt, hjlt, get?_isSome_iff.mpr hilt, get?_isSome_iff.mpr hjlt,
            fun h => absurd h (by decide), fun _ => ⟨hd1.1, hd2.1, hiv, hjv⟩⟩

theorem word_ways_direction {α : Type} [DecidableEq α]
    (self : PlacedWord α) (word : Word α) (d : Direction) (hlock : word.dir = some d) :
    ∀ p ∈ self.calculate_possible_ways_to_add_word word, p.direction = d := by
  intro p hp
  unfold PlacedWord.calculate_possible_ways_to_add_word at hp
  rw [hlock] at hp
  by_cases hds : d = self.direction
  · simp [hds] at hp
  · simp only [hds, decide_eq_true_eq, if_false, decide_eq_false_iff_not,
      not_false_iff, if_neg] at hp
    simp only [List.mem_flatMap, List.mem_map, List.mem_filter] at hp
    obtain ⟨c, -, wi, -, si, -, hpe⟩ := hp
    have : p.direction = self.direction.opposite := by rw [← hpe]
    rw [this]
    cases d <;> cases hsd : self.direction <;> simp_all [Direction.opposite]

/-- C2 counterexample: on the empty layout the single candidate produced for
the word `[0]` locked to `Down` has direction `Right` (`Direction::default()`),
so not every candidate of a direction-locked word has the locked direction. -/
theorem locked_direction_counterexample :
    ¬ (∀ p ∈ (Crossword.new WordCompatibilitySettings.default :
          Crossword Nat).calculate_possible_ways_to_add_word
            ⟨[0], some Direction.Down⟩, p.direction = Direction.Down) := by
  decide

/-- C2 amended: for a word with direction lock `some d`, every candidate of
the word-level enumeration has direction `d`, and hence every layout-level
candidate on a NON-EMPTY layout has direction `d`; on the empty layout,
however, the single candidate at `(0,0)` always carries the `Right` default
direction, regardless of the lock. -/
theorem locked_direction_spec {α : Type} [DecidableEq α]
    (cw : Crossword α) (self : PlacedWord α) (word : Word α) (d : Direction)
    (hlock : word.dir = some d) :
    (∀ p ∈ self.calculate_possible_ways_to_add_word word, p.direction = d) ∧
    (cw.words ≠ [] →
       ∀ p ∈ cw.calculate_possible_ways_to_add_word word, p.direction = d) ∧
    (cw.words = [] →
       cw.calculate_possible_ways_to_add_word word =
         [⟨⟨0, 0⟩, Direction.Right, word.value⟩]) := by
  refine ⟨word_ways_direction self word d hlock, ?_, ?_⟩
  · intro hne p hp
    unfold Crossword.calculate_possible_ways_to_add_word at hp
    rw [if_neg (by simpa using hne)] at hp
    rw [List.mem_filter, List.mem_flatMap] at hp
    obtain ⟨⟨w, -, hpw⟩, -⟩ := hp
    exact word_ways_direction w word d hlock p hpw
  · intro he
    unfold Crossword.calculate_possible_ways_to_add_word
    rw [if_pos (by simpa using he)]

/-- C1 counterexample: with the default policy, on a layout holding `[0, 1]`
at `(0,0)` Right, the candidate `[0, 1]` at `(10,10)` Right is compatible
with every placed word, so `can_word_be_added` returns true even though a
placed word with the same value exists — the claim that it must return false
in that situation fails. -/
theorem can_word_be_added_counterexample :
    (⟨[⟨⟨0, 0⟩, Direction.Right, [0, 1]⟩], WordCompatibilitySettings.default⟩ :
        Crossword Nat).can_word_be_added ⟨⟨10, 10⟩, Direction.Right, [0, 1]⟩ = true ∧
    (∃ w ∈ (⟨[⟨⟨0, 0⟩, Direction.Right, [0, 1]⟩], WordCompatibilitySettings.default⟩ :
        Crossword Nat).words, w.value = ([0, 1] : List Nat)) := by
  decide

/-- C1 amended: `can_word_be_added` returns true iff the candidate is
compatible with every placed word of the layout under its policy — it does
not inspect values at all; the duplicate-value rejection is enforced
separately by `add_word_unnormalized`, which returns `WordAlreadyExists`
whenever a placed word with the candidate's value exists. -/
theorem can_word_be_added_spec {α : Type} [DecidableEq α]
    (cw : Crossword α) (p : PlacedWord α) :
    (cw.can_word_be_added p = true ↔
       ∀ w ∈ cw.words,
         cw.word_compatibility_settings.are_words_compatible w p = true) ∧
    ((∃ w ∈ cw.words, w.value = p.value) →
       cw.add_word_unnormalized p = (cw, some CrosswordError.WordAlreadyExists)) := by
  constructor
  · unfold Crossword.can_word_be_added
    exact List.all_eq_true
  · intro hex
    unfold Crossword.add_word_unnormalized
    rw [if_pos ?_]
    unfold Crossword.find_word
    rw [List.find?_isSome]
    obtain ⟨w, hw, hv⟩ := hex
    exact ⟨w, hw, by simp [hv]⟩

theorem locked_direction_spec_witness :
    ((Crossword.new WordCompatibilitySettings.default :
        Crossword Nat).calculate_possible_ways_to_add_word ⟨[0], some Direction.Down⟩ =
      [⟨⟨0, 0⟩, Direction.Right, [0]⟩]) ∧
    (⟨⟨1, 0⟩, Direction.Down, [1]⟩ : PlacedWord Nat).direction = Direction.Down :=
  ⟨(locked_direction_spec (Crossword.new WordCompatibilitySettings.default)
      ⟨⟨0, 0⟩, Direction.Right, [0]⟩ ⟨[0], some Direction.Down⟩ Direction.Down rfl).2.2 rfl,
   (locked_direction_spec
      (⟨[⟨⟨0, 0⟩, Direction.Right, [0, 1]⟩], WordCompatibilitySettings.default⟩ :
        Crossword Nat)
      ⟨⟨0, 0⟩, Direction.Right, [0, 1]⟩ ⟨[1], some Direction.Down⟩ Direction.Down rfl).2.1
      (by decide) ⟨⟨1, 0⟩, Direction.Down, [1]⟩ (by decide)⟩

theorem can_word_be_added_spec_witness :
    (⟨[⟨⟨0, 0⟩, Direction.Right, [0, 1]⟩], WordCompatibilitySettings.default⟩ :
        Crossword Nat).add_word_unnormalized ⟨⟨10, 10⟩, Direction.Right, [0, 1]⟩ =
      (⟨[⟨⟨0, 0⟩, Direction.Right, [0, 1]⟩], WordCompatibilitySettings.default⟩,
       some CrosswordError.WordAlreadyExists) :=
  (can_word_be_added_spec
    (⟨[⟨⟨0, 0⟩, Direction.Right, [0, 1]⟩], WordCompatibilitySettings.default⟩ :
      Crossword Nat) ⟨⟨10, 10⟩, Direction.Right, [0, 1]⟩).2 (by decide)

theorem get_intersection_indices_safe_witness :
    ((⟨⟨0, 1⟩, Direction.Right, [104, 101, 108, 108, 111]⟩ :
        PlacedWord Nat).get_intersection_indices
      ⟨⟨4, 0⟩, Direction.Down, [119, 111, 114, 108, 100]⟩).isSome = true ∧
    (4 < ([104, 101, 108, 108, 111] : List Nat).length ∧
     1 < ([119, 111, 114, 108, 100] : List Nat).length) :=
  ⟨(get_intersection_indices_safe
      (⟨⟨0, 1⟩, Direction.Right, [104, 101, 108, 108, 111]⟩ : PlacedWord Nat)
      ⟨⟨4, 0⟩, Direction.Down, [119, 111, 114, 108, 100]⟩
      (by decide) (by decide)).1 (by decide) (by decide),
   ((get_intersection_indices_safe
      (⟨⟨0, 1⟩, Direction.Right, [104, 101, 108, 108, 111]⟩ : PlacedWord Nat)
      ⟨⟨4, 0⟩, Direction.Down, [119, 111, 114, 108, 100]⟩
      (by decide) (by decide)).2 4 1 (by decide)).1,
   ((get_intersection_indices_safe
      (⟨⟨0, 1⟩, Direction.Right, [104, 101, 108, 108, 111]⟩ : PlacedWord Nat)
      ⟨⟨4, 0⟩, Direction.Down, [119, 111, 114, 108, 100]⟩
      (by decide) (by decide)).2 4 1 (by decide)).2.1⟩

theorem find_word_isSome_iff {α : Type} [DecidableEq α]
    (cw : Crossword α) (v : List α) :
    (cw.find_word v).isSome = true ↔ ∃ u ∈ cw.words, u.value = v := by
  unfold Crossword.find_word
  rw [List.find?_isSome]
  simp only [decide_eq_true_eq]

theorem add_word_unnormalized_err {α : Type} [DecidableEq α]
    {cw : Crossword α} {w : PlacedWord α} {e : CrosswordError}
    (h : (cw.add_word_unnormalized w).2 = some e) :
    (cw.add_word_unnormalized w).1 = cw := by
  unfold Crossword.add_word_unnormalized at h ⊢
  by_cases h1 : (cw.find_word w.value).isSome = true
  · rw [if_pos h1]
  · rw [if_neg h1] at h ⊢
    by_cases h2 : (!cw.can_word_be_added w) = true
    · rw [if_pos h2]
    · rw [if_neg h2] at h
      exact absurd h (by simp)

theorem add_word_unnormalized_ok {α : Type} [DecidableEq α]
    {cw : Crossword α} {w : PlacedWord α}
    (h : (cw.add_word_unnormalized w).2 = none) :
    (cw.add_word_unnormalized w).1 = { cw with words := cw.words ++ [w] } := by
  unfold Crossword.add_word_unnormalized at h ⊢
  by_cases h1 : (cw.find_word w.value).isSome = true
  · rw [if_pos h1] at h
    exact absurd h (by simp)
  · rw [if_neg h1] at h ⊢
    by_cases h2 : (!cw.can_word_be_added w) = true
    · rw [if_pos h2] at h
      exact absurd h (by simp)
    · rw [if_neg h2]

/-- C4: `add_word` errors `WordAlreadyExists` when a placed word with the
same value exists (leaving the layout unchanged), errors `CantAddWord` when
the can-add check fails (layout unchanged), and otherwise inserts the word
and normalizes; `add_words` behaves identically per element but normalizes
exactly once at the end, and when an element errors it returns that error
with the layout in the partially-added, renormalized state. -/
theorem add_word_add_words_spec {α : Type} [DecidableEq α]
    (cw : Crossword α) (w : PlacedWord α) (ws : List (PlacedWord α)) :
    ((∃ u ∈ cw.words, u.value = w.value) →
       cw.add_word w = (cw, some CrosswordError.WordAlreadyExists)) ∧
    ((¬ ∃ u ∈ cw.words, u.value = w.value) → cw.can_word_be_added w = false →
       cw.add_word w = (cw, some CrosswordError.CantAddWord)) ∧
    ((¬ ∃ u ∈ cw.words, u.value = w.value) → cw.can_word_be_added w = true →
       cw.add_word w =
         (({ cw with words := cw.words ++ [w] } : Crossword α).normalize, none)) ∧
    cw.add_words [] = (cw.normalize, none) ∧
    (∀ e, (cw.add_word_unnormalized w).2 = some e →
       cw.add_words (w :: ws) = (cw.normalize, some e)) ∧
    ((cw.add_word_unnormalized w).2 = none →
       cw.add_words (w :: ws) =
         ({ cw with words := cw.words ++ [w] } : Crossword α).add_words ws) := by
  refine ⟨?_, ?_, ?_, rfl, ?_, ?_⟩
  · intro hex
    have hsome : (cw.find_word w.value).isSome = true :=
      (find_word_isSome_iff cw w.value).mpr hex
    have h1 : cw.add_word_unnormalized w = (cw, some CrosswordError.WordAlreadyExists) := by
      unfold Crossword.add_word_unnormalized
      rw [if_pos hsome]
    unfold Crossword.add_word
    rw [h1]
  · intro hnex hcan
    have hns : ¬ (cw.find_word w.value).isSome = true := by
      rw [find_word_isSome_iff]
      exact hnex
    have h1 : cw.add_word_unnormalized w = (cw, some CrosswordError.CantAddWord) := by
      unfold Crossword.add_word_unnormalized
      rw [if_neg hns, if_pos (by rw [hcan]; rfl)]
    unfold Crossword.add_word
    rw [h1]
  · intro hnex hcan
    have hns : ¬ (cw.find_word w.value).isSome = true := by
      rw [find_word_isSome_iff]
      exact hnex
    have h1 : cw.add_word_unnormalized w = ({ cw with words := cw.words ++ [w] }, none) := by
      unfold Crossword.add_word_unnormalized
      rw [if_neg hns, if_neg (by rw [hcan]; simp)]
    unfold Crossword.add_word
    rw [h1]
  · intro e he
    have h1 : cw.add_word_unnormalized w = (cw, some e) := by
      have := add_word_unnormalized_err he
      cases hcw : cw.add_word_unnormalized w
      rw [hcw] at this he
      simp only at this he
      rw [this, he]
    unfold Crossword.add_words Crossword.add_words_aux
    rw [h1]
  · intro he
    have h1 : cw.add_word_unnormalized w = ({ cw with words := cw.words ++ [w] }, none) := by
      have := add_word_unnormalized_ok he
      cases hcw : cw.add_word_unnormalized w
      rw [hcw] at this he
      simp only at this he
      rw [this, he]
    have haux : cw.add_words_aux (w :: ws) =
        ({ cw with words := cw.words ++ [w] } : Crossword α).add_words_aux ws := by
      conv_lhs => unfold Crossword.add_words_aux
      rw [h1]
    unfold Crossword.add_words
    rw [haux]

theorem add_word_add_words_spec_witness :
    ((⟨[⟨⟨0, 0⟩, Direction.Right, [0, 1]⟩], WordCompatibilitySettings.default⟩ :
        Crossword Nat).add_word ⟨⟨5, 5⟩, Direction.Right, [0, 1]⟩ =
      (⟨[⟨⟨0, 0⟩, Direction.Right, [0, 1]⟩], WordCompatibilitySettings.default⟩,
       some CrosswordError.WordAlreadyExists)) ∧
    ((⟨[⟨⟨0, 0⟩, Direction.Right, [0, 1]⟩], WordCompatibilitySettings.default⟩ :
        Crossword Nat).add_word ⟨⟨0, 0⟩, Direction.Right, [2, 3]⟩ =
      (⟨[⟨⟨0, 0⟩, Direction.Right, [0, 1]⟩], WordCompatibilitySettings.default⟩,
       some CrosswordError.CantAddWord)) ∧
    ((⟨[⟨⟨0, 0⟩, Direction.Right, [0, 1]⟩], WordCompatibilitySettings.default⟩ :
        Crossword Nat).add_word ⟨⟨0, 0⟩, Direction.Down, [0, 2]⟩ =
      (⟨[⟨⟨0, 0⟩, Direction.Right, [0, 1]⟩, ⟨⟨0, 0⟩, Direction.Down, [0, 2]⟩],
         WordCompatibilitySettings.default⟩, none)) ∧
    ((⟨[⟨⟨0, 0⟩, Direction.Right, [0, 1]⟩], WordCompatibilitySettings.default⟩ :
        Crossword Nat).add_words [⟨⟨5, 5⟩, Direction.Right, [0, 1]⟩] =
      (⟨[⟨⟨0, 0⟩, Direction.Right, [0, 1]⟩], WordCompatibilitySettings.default⟩,
       some CrosswordError.WordAlreadyExists)) :=
  ⟨(add_word_add_words_spec
      (⟨[⟨⟨0, 0⟩, Direction.Right, [0, 1]⟩], WordCompatibilitySettings.default⟩ :
        Crossword Nat) ⟨⟨5, 5⟩, Direction.Right, [0, 1]⟩ []).1 (by decide),
   (add_word_add_words_spec
      (⟨[⟨⟨0, 0⟩, Direction.Right, [0, 1]⟩], WordCompatibilitySettings.default⟩ :
        Crossword Nat) ⟨⟨0, 0⟩, Direction.Right, [2, 3]⟩ []).2.1 (by decide) (by decide),
   (add_word_add_words_spec
      (⟨[⟨⟨0, 0⟩, Direction.Right, [0, 1]⟩], WordCompatibilitySettings.default⟩ :
        Crossword Nat) ⟨⟨0, 0⟩, Direction.Down, [0, 2]⟩ []).2.2.1 (by decide) (by decide),
   (add_word_add_words_spec
      (⟨[⟨⟨0, 0⟩, Direction.Right, [0, 1]⟩], WordCompatibilitySettings.default⟩ :
        Crossword Nat) ⟨⟨5, 5⟩, Direction.Right, [0, 1]⟩ []).2.2.2.2.1
      CrosswordError.WordAlreadyExists (by decide)⟩

/-- The `i16` range of a placed word's position (static in the Rust source). -/
def PlacedWord.posInI16Range {α : Type} (w : PlacedWord α) : Prop :=
  -32768 ≤ w.position.x ∧ w.position.x ≤ 32767 ∧
  -32768 ≤ w.position.y ∧ w.position.y ≤ 32767

/-- All placed words of a layout have `i16` positions. -/
def Crossword.inI16Range {α : Type} (cw : Crossword α) : Prop :=
  ∀ w ∈ cw.words, w.posInI16Range

/-- The spec's normalization invariant, spelled out: when the layout is
non-empty, the minimum x and the minimum y over all positions are both 0. -/
def Crossword.isNormalized {α : Type} (cw : Crossword α) : Prop :=
  cw.words ≠ [] →
    ((∀ w ∈ cw.words, 0 ≤ w.position.x ∧ 0 ≤ w.position.y) ∧
     (∃ w ∈ cw.words, w.position.x = 0) ∧ (∃ w ∈ cw.words, w.position.y = 0))

theorem foldl_min_spec {β : Type} (f : β → Int) (l : List β) (init : Int) :
    (l.foldl (fun m b => min m (f b)) init ≤ init) ∧
    (∀ b ∈ l, l.foldl (fun m b => min m (f b)) init ≤ f b) ∧
    (l.foldl (fun m b => min m (f b)) init = init ∨
     ∃ b ∈ l, l.foldl (fun m b => min m (f b)) init = f b) := by
  induction l generalizing init with
  | nil => simp
  | cons a t ih =>
    obtain ⟨h1, h2, h3⟩ := ih (min init (f a))
    simp only [List.foldl_cons]
    refine ⟨le_trans h1 (min_le_left _ _), ?_, ?_⟩
    · intro b hb
      rcases List.mem_cons.mp hb with hb | hb
      · rw [hb]
        exact le_trans h1 (min_le_right _ _)
      · exact h2 b hb
    · rcases h3 with h3 | ⟨b, hb, he⟩
      · rcases le_total init (f a) with hm | hm
        · exact Or.inl (h3.trans (min_eq_left hm))
        · exact Or.inr ⟨a, List.mem_cons_self a t, h3.trans (min_eq_right hm)⟩
      · exact Or.inr ⟨b, List.mem_cons_of_mem a hb, he⟩

theorem normalize_isNormalized {α : Type} [DecidableEq α] (cw : Crossword α)
    (h : ∀ w ∈ cw.words, w.position.x ≤ 32767 ∧ w.position.y ≤ 32767)
    (hsp : ∀ a ∈ cw.words, ∀ b ∈ cw.words,
      a.position.x - b.position.x ≤ 32767 ∧ a.position.y - b.position.y ≤ 32767) :
    cw.normalize.isNormalized := by
  intro hne
  unfold Crossword.normalize at hne ⊢
  simp only at hne ⊢
  have hwne : cw.words ≠ [] := by
    intro hnil
    rw [hnil] at hne
    exact hne rfl
  obtain ⟨a, ha⟩ := List.exists_mem_of_ne_nil cw.words hwne
  obtain ⟨hx1, hx2, hx3⟩ := foldl_min_spec (fun w : PlacedWord α => w.position.x) cw.words 32767
  obtain ⟨hy1, hy2, hy3⟩ := foldl_min_spec (fun w : PlacedWord α => w.position.y) cw.words 32767
  set mX := cw.words.foldl (fun m w => min m w.position.x) 32767 with hmX
  set mY := cw.words.foldl (fun m w => min m w.position.y) 32767 with hmY
  have hax : ∃ w ∈ cw.words, w.position.x = mX := by
    rcases hx3 with h3 | ⟨b, hb, he⟩
    · refine ⟨a, ha, ?_⟩
      have := hx2 a ha
      have := (h a ha).1
      omega
    · exact ⟨b, hb, he.symm⟩
  have hay : ∃ w ∈ cw.words, w.position.y = mY := by
    rcases hy3 with h3 | ⟨b, hb, he⟩
    · refine ⟨a, ha, ?_⟩
      have := hy2 a ha
      have := (h a ha).2
      omega
    · exact ⟨b, hb, he.symm⟩
  obtain ⟨bx, hbx, hbx0⟩ := hax
  obtain ⟨by1, hby, hby0⟩ := hay
  have hidx : ∀ u ∈ cw.words, i16Wrap (u.position.x - mX) = u.position.x - mX := by
    intro u hu
    apply i16Wrap_eq
    · have := hx2 u hu
      omega
    · have := (hsp u hu bx hbx).1
      omega
  have hidy : ∀ u ∈ cw.words, i16Wrap (u.position.y - mY) = u.position.y - mY := by
    intro u hu
    apply i16Wrap_eq
    · have := hy2 u hu
      omega
    · have := (hsp u hu by1 hby).2
      omega
  refine ⟨?_, ?_, ?_⟩
  · intro w' hw'
    rw [List.mem_map] at hw'
    obtain ⟨u, hu, he⟩ := hw'
    rw [← he]
    have h1 := hx2 u hu
    have h2 := hy2 u hu
    constructor
    · show (0 : Int) ≤ i16Wrap (u.position.x - mX)
      rw [hidx u hu]
      omega
    · show (0 : Int) ≤ i16Wrap (u.position.y - mY)
      rw [hidy u hu]
      omega
  · refine ⟨_, List.mem_map_of_mem _ hbx, ?_⟩
    show i16Wrap (bx.position.x - mX) = 0
    rw [hidx bx hbx]
    omega
  · refine ⟨_, List.mem_map_of_mem _ hby, ?_⟩
    show i16Wrap (by1.position.y - mY) = 0
    rw [hidy by1 hby]
    omega

theorem add_words_aux_words_mem {α : Type} [DecidableEq α]
    (ws : List (PlacedWord α)) (cw : Crossword α) :
    ∀ u ∈ (cw.add_words_aux ws).1.words, u ∈ cw.words ∨ u ∈ ws := by
  induction ws generalizing cw with
  | nil => exact fun u hu => Or.inl hu
  | cons w t ih =>
    intro u hu
    have haux : cw.add_words_aux (w :: t) =
        (match (cw.add_word_unnormalized w).2 with
         | some e => ((cw.add_word_unnormalized w).1, some e)
         | none => (cw.add_word_unnormalized w).1.add_words_aux t) := by
      conv_lhs => unfold Crossword.add_words_aux
    cases he : (cw.add_word_unnormalized w).2 with
    | some e =>
      rw [haux, he] at hu
      simp only at hu
      rw [add_word_unnormalized_err he] at hu
      exact Or.inl hu
    | none =>
      rw [haux, he] at hu
      simp only at hu
      rcases ih (cw.add_word_unnormalized w).1 u hu with h | h
      · rw [add_word_unnormalized_ok he] at h
        simp only at h
        rcases List.mem_append.mp h with h | h
        · exact Or.inl h
        · rcases List.mem_singleton.mp h with rfl
          exact Or.inr (List.mem_cons_self _ _)
      · exact Or.inr (List.mem_cons_of_mem _ h)

/-- C5 (amended): the normalization invariant is preserved by every public
mutation — after `add_word` (success or error), `add_words` (success or
error), or `remove_word` on a normalized layout with `i16` positions, the
minimum x and minimum y over all placed-word positions are 0 whenever the
layout is non-empty — provided the words involved fit in a common
32768-wide window (pairwise coordinate differences at most 32767), so that
the `i16` subtraction inside `normalize` does not overflow.  Outside that
window the wrap breaks the invariant (see the counterexample). -/
theorem normalization_invariant {α : Type} [DecidableEq α]
    (cw : Crossword α) (w : PlacedWord α) (v : List α) (ws : List (PlacedWord α))
    (hcw : cw.inI16Range) (hn : cw.isNormalized)
    (hw : w.posInI16Range) (hws : ∀ u ∈ ws, u.posInI16Range)
    (hsp : ∀ a ∈ w :: (cw.words ++ ws), ∀ b ∈ w :: (cw.words ++ ws),
      a.position.x - b.position.x ≤ 32767 ∧ a.position.y - b.position.y ≤ 32767) :
    (cw.add_word w).1.isNormalized ∧
    (cw.add_words ws).1.isNormalized ∧
    (cw.remove_word v).1.isNormalized := by
  have hmemAll : ∀ u : PlacedWord α, u ∈ cw.words ∨ u = w ∨ u ∈ ws →
      u ∈ w :: (cw.words ++ ws) := by
    intro u hu
    rcases hu with h | h | h
    · exact List.mem_cons_of_mem _ (List.mem_append_left _ h)
    · rw [h]
      exact List.mem_cons_self _ _
    · exact List.mem_cons_of_mem _ (List.mem_append_right _ h)
  refine ⟨?_, ?_, ?_⟩
  · cases he : (cw.add_word_unnormalized w).2 with
    | some e =>
      have hfst : (cw.add_word w).1 = cw := by
        unfold Crossword.add_word
        simp only [he]
        exact add_word_unnormalized_err he
      rw [hfst]
      exact hn
    | none =>
      have hfst : (cw.add_word w).1 = (cw.add_word_unnormalized w).1.normalize := by
        unfold Crossword.add_word
        simp only [he]
      rw [hfst]
      have hmem1 : ∀ u ∈ (cw.add_word_unnormalized w).1.words,
          u ∈ w :: (cw.words ++ ws) := by
        intro u hu
        rw [add_word_unnormalized_ok he] at hu
        simp only at hu
        rcases List.mem_append.mp hu with h | h
        · exact hmemAll u (Or.inl h)
        · exact hmemAll u (Or.inr (Or.inl (List.mem_singleton.mp h)))
      refine normalize_isNormalized _ ?_ ?_
      · intro u hu
        rw [add_word_unnormalized_ok he] at hu
        simp only at hu
        rcases List.mem_append.mp hu with h | h
        · have := hcw u h
          unfold PlacedWord.posInI16Range at this
          exact ⟨this.2.1, this.2.2.2⟩
        · rcases List.mem_singleton.mp h with rfl
          exact ⟨hw.2.1, hw.2.2.2⟩
      · intro a ha b hb
        exact hsp a (hmem1 a ha) b (hmem1 b hb)
  · have hfst : (cw.add_words ws).1 = (cw.add_words_aux ws).1.normalize := rfl
    rw [hfst]
    have hmem2 : ∀ u ∈ (cw.add_words_aux ws).1.words,
        u ∈ w :: (cw.words ++ ws) := by
      intro u hu
      rcases add_words_aux_words_mem ws cw u hu with h | h
      · exact hmemAll u (Or.inl h)
      · exact hmemAll u (Or.inr (Or.inr h))
    refine normalize_isNormalized _ ?_ ?_
    · intro u hu
      rcases add_words_aux_words_mem ws cw u hu with h | h
      · have := hcw u h
        exact ⟨this.2.1, this.2.2.2⟩
      · have := hws u h
        exact ⟨this.2.1, this.2.2.2⟩
    · intro a ha b hb
      exact hsp a (hmem2 a ha) b (hmem2 b hb)
  · unfold Crossword.remove_word
    cases hf : cw.find_word v with
    | none => exact hn
    | some u =>
      simp only
      refine normalize_isNormalized _ ?_ ?_
      · intro x hx
        have hx' : x ∈ cw.words := List.mem_of_mem_erase hx
        have := hcw x hx'
        exact ⟨this.2.1, this.2.2.2⟩
      · intro a ha b hb
        have ha' : a ∈ cw.words := List.mem_of_mem_erase ha
        have hb' : b ∈ cw.words := List.mem_of_mem_erase hb
        exact hsp a (hmemAll a (Or.inl ha')) b (hmemAll b (Or.inl hb'))

theorem normalization_invariant_witness :
    ((⟨[⟨⟨0, 0⟩, Direction.Right, [0, 1]⟩], WordCompatibilitySettings.default⟩ :
        Crossword Nat).add_word ⟨⟨0, 0⟩, Direction.Down, [0, 2]⟩).1.isNormalized ∧
    ((⟨[⟨⟨0, 0⟩, Direction.Right, [0, 1]⟩], WordCompatibilitySettings.default⟩ :
        Crossword Nat).add_words [⟨⟨1, -1⟩, Direction.Down, [9, 1]⟩]).1.isNormalized ∧
    ((⟨[⟨⟨0, 0⟩, Direction.Right, [0, 1]⟩], WordCompatibilitySettings.default⟩ :
        Crossword Nat).remove_word [0, 1]).1.isNormalized :=
  ⟨(normalization_invariant
      (⟨[⟨⟨0, 0⟩, Direction.Right, [0, 1]⟩], WordCompatibilitySettings.default⟩ :
        Crossword Nat) ⟨⟨0, 0⟩, Direction.Down, [0, 2]⟩ [0, 1]
      [⟨⟨1, -1⟩, Direction.Down, [9, 1]⟩]
      (by unfold Crossword.inI16Range PlacedWord.posInI16Range; decide)
      (by unfold Crossword.isNormalized; decide)
      (by unfold PlacedWord.posInI16Range; decide)
      (by unfold PlacedWord.posInI16Range; decide)
      (by decide)).1,
   (normalization_invariant
      (⟨[⟨⟨0, 0⟩, Direction.Right, [0, 1]⟩], WordCompatibilitySettings.default⟩ :
        Crossword Nat) ⟨⟨0, 0⟩, Direction.Down, [0, 2]⟩ [0, 1]
      [⟨⟨1, -1⟩, Direction.Down, [9, 1]⟩]
      (by unfold Crossword.inI16Range PlacedWord.posInI16Range; decide)
      (by unfold Crossword.isNormalized; decide)
      (by unfold PlacedWord.posInI16Range; decide)
      (by unfold PlacedWord.posInI16Range; decide)
      (by decide)).2.1,
   (normalization_invariant
      (⟨[⟨⟨0, 0⟩, Direction.Right, [0, 1]⟩], WordCompatibilitySettings.default⟩ :
        Crossword Nat) ⟨⟨0, 0⟩, Direction.Down, [0, 2]⟩ [0, 1]
      [⟨⟨1, -1⟩, Direction.Down, [9, 1]⟩]
      (by unfold Crossword.inI16Range PlacedWord.posInI16Range; decide)
      (by unfold Crossword.isNormalized; decide)
      (by unfold PlacedWord.posInI16Range; decide)
      (by unfold PlacedWord.posInI16Range; decide)
      (by decide)).2.2⟩

theorem foldl_min_eq {β : Type} (f : β → Int) (l : List β) (m : Int)
    (hm : m ≤ 32767) (hlow : ∀ b ∈ l, m ≤ f b) (hat : ∃ b ∈ l, f b = m) :
    l.foldl (fun a b => min a (f b)) 32767 = m := by
  obtain ⟨h1, h2, h3⟩ := foldl_min_spec f l 32767
  obtain ⟨b0, hb0, he0⟩ := hat
  have hle := h2 b0 hb0
  rw [he0] at hle
  rcases h3 with h | ⟨b, hb, he⟩
  · omega
  · have := hlow b hb
    omega

theorem crossword_normalize_eq {α : Type} [DecidableEq α] (cw : Crossword α) :
    cw.normalize =
      ⟨cw.words.map (fun w =>
          ⟨⟨i16Wrap (w.position.x - cw.words.foldl (fun m u => min m u.position.x) 32767),
            i16Wrap (w.position.y - cw.words.foldl (fun m u => min m u.position.y) 32767)⟩,
           w.direction, w.value⟩),
       cw.word_compatibility_settings⟩ := rfl

theorem remove_after_shift {α : Type} [DecidableEq α]
    (L : List (PlacedWord α)) (p : PlacedWord α) (s : WordCompatibilitySettings)
    (f : PlacedWord α → Position)
    (hnv : ∀ u ∈ L, ¬ u.value = p.value) :
    ((⟨(L ++ [p]).map (fun w => (⟨f w, w.direction, w.value⟩ : PlacedWord α)), s⟩ :
        Crossword α).remove_word p.value).1 =
      (⟨L.map (fun w => (⟨f w, w.direction, w.value⟩ : PlacedWord α)), s⟩ :
        Crossword α).normalize := by
  have hfind : (⟨(L ++ [p]).map (fun w => (⟨f w, w.direction, w.value⟩ : PlacedWord α)), s⟩ :
      Crossword α).find_word p.value =
      some ⟨f p, p.direction, p.value⟩ := by
    unfold Crossword.find_word
    simp only [List.map_append, List.map_cons, List.map_nil]
    rw [List.find?_append]
    have hnone : List.find? (fun w => decide (w.value = p.value))
        (L.map (fun w => (⟨f w, w.direction, w.value⟩ : PlacedWord α))) = none := by
      rw [List.find?_eq_none]
      intro x hx
      rw [List.mem_map] at hx
      obtain ⟨w, hw, rfl⟩ := hx
      simp only [decide_eq_true_eq]
      exact hnv w hw
    rw [hnone]
    simp [List.find?]
  unfold Crossword.remove_word
  rw [hfind]
  simp only
  have hnm : (⟨f p, p.direction, p.value⟩ : PlacedWord α) ∉
      L.map (fun w => (⟨f w, w.direction, w.value⟩ : PlacedWord α)) := by
    intro hmem
    rw [List.mem_map] at hmem
    obtain ⟨w, hw, heq⟩ := hmem
    apply hnv w hw
    have hval : ({ position := f w, direction := w.direction, value := w.value } :
        PlacedWord α).value =
        ({ position := f p, direction := p.direction, value := p.value } :
          PlacedWord α).value := congrArg PlacedWord.value heq
    exact hval
  have herase : ((L ++ [p]).map (fun w => (⟨f w, w.direction, w.value⟩ : PlacedWord α))).erase
      ⟨f p, p.direction, p.value⟩ =
      L.map (fun w => (⟨f w, w.direction, w.value⟩ : PlacedWord α)) := by
    rw [List.map_append, List.map_cons, List.map_nil,
      List.erase_append_right _ hnm, List.erase_cons_head]
    simp
  rw [herase]

/-- C6 (amended): add-then-remove round trip — for every normalized layout
and every placed word `p` with `i16`-interior position whose `add_word`
succeeds, adding `p` and then removing `p.value` restores the original
layout structurally, provided the layout's words and `p` fit in a common
32768-wide window (pairwise coordinate differences at most 32767), so that
the `i16` subtractions inside `normalize` do not overflow.  Outside that
window the wrap breaks the round trip (see the counterexample). -/
theorem add_then_remove {α : Type} [DecidableEq α]
    (cw : Crossword α) (p : PlacedWord α)
    (hn : cw.isNormalized)
    (hpx1 : -32767 ≤ p.position.x) (hpx2 : p.position.x ≤ 32767)
    (hpy1 : -32767 ≤ p.position.y) (hpy2 : p.position.y ≤ 32767)
    (hsp : ∀ a ∈ cw.words ++ [p], ∀ b ∈ cw.words ++ [p],
      a.position.x - b.position.x ≤ 32767 ∧ a.position.y - b.position.y ≤ 32767)
    (hok : (cw.add_word p).2 = none) :
    ((cw.add_word p).1.remove_word p.value).1 = cw := by
  have hu : (cw.add_word_unnormalized p).2 = none := by
    cases he : (cw.add_word_unnormalized p).2 with
    | none => rfl
    | some e =>
      unfold Crossword.add_word at hok
      simp only [he] at hok
      exact Option.noConfusion hok
  have h1 : (cw.add_word p).1 =
      ({ cw with words := cw.words ++ [p] } : Crossword α).normalize := by
    unfold Crossword.add_word
    simp only [hu]
    rw [add_word_unnormalized_ok hu]
  have hnv : ∀ u ∈ cw.words, ¬ u.value = p.value := by
    intro u hu' hv
    have hf : (cw.find_word p.value).isSome = true :=
      (find_word_isSome_iff cw p.value).mpr ⟨u, hu', hv⟩
    unfold Crossword.add_word_unnormalized at hu
    rw [if_pos hf] at hu
    simp at hu
  rw [h1, crossword_normalize_eq]
  simp only
  rw [remove_after_shift _ p _ _ hnv]
  by_cases hL : cw.words = []
  · rw [hL]
    simp only [List.map_nil]
    rw [crossword_normalize_eq]
    simp only [List.map_nil]
    calc (⟨[], cw.word_compatibility_settings⟩ : Crossword α)
        = ⟨cw.words, cw.word_compatibility_settings⟩ := by rw [hL]
      _ = cw := rfl
  · obtain ⟨hpos, ⟨wx, hwx, hwx0⟩, ⟨wy, hwy, hwy0⟩⟩ := hn hL
    have hub : ∀ u ∈ cw.words, u.position.x ≤ 32767 ∧ u.position.y ≤ 32767 := by
      intro u hu2
      constructor
      · have h := (hsp u (List.mem_append_left _ hu2) wx (List.mem_append_left _ hwx)).1
        omega
      · have h := (hsp u (List.mem_append_left _ hu2) wy (List.mem_append_left _ hwy)).2
        omega
    have hm1x : List.foldl (fun m u => min m u.position.x) 32767 (cw.words ++ [p]) =
        min 0 p.position.x := by
      apply foldl_min_eq
      · exact le_trans (min_le_left _ _) (by norm_num)
      · intro b hb
        rcases List.mem_append.mp hb with h | h
        · exact le_trans (min_le_left _ _) (hpos b h).1
        · rcases List.mem_singleton.mp h with rfl
          exact min_le_right _ _
      · rcases le_total p.position.x 0 with hc | hc
        · exact ⟨p, List.mem_append.mpr (Or.inr (List.mem_singleton_self p)),
            (min_eq_right hc).symm ▸ rfl⟩
        · refine ⟨wx, List.mem_append.mpr (Or.inl hwx), ?_⟩
          rw [hwx0, min_eq_left hc]
    have hm1y : List.foldl (fun m u => min m u.position.y) 32767 (cw.words ++ [p]) =
        min 0 p.position.y := by
      apply foldl_min_eq
      · exact le_trans (min_le_left _ _) (by norm_num)
      · intro b hb
        rcases List.mem_append.mp hb with h | h
        · exact le_trans (min_le_left _ _) (hpos b h).2
        · rcases List.mem_singleton.mp h with rfl
          exact min_le_right _ _
      · rcases le_total p.position.y 0 with hc | hc
        · exact ⟨p, List.mem_append.mpr (Or.inr (List.mem_singleton_self p)),
            (min_eq_right hc).symm ▸ rfl⟩
        · refine ⟨wy, List.mem_append.mpr (Or.inl hwy), ?_⟩
          rw [hwy0, min_eq_left hc]
    rw [hm1x, hm1y]
    have hplainx : ∀ u ∈ cw.words,
        i16Wrap (u.position.x - min 0 p.position.x) =
          u.position.x - min 0 p.position.x := by
      intro u hu2
      apply i16Wrap_eq
      · have h0 := (hpos u hu2).1
        rcases le_total 0 p.position.x with hc | hc
        · rw [min_eq_left hc]
          omega
        · rw [min_eq_right hc]
          omega
      · rcases le_total 0 p.position.x with hc | hc
        · rw [min_eq_left hc]
          have := (hub u hu2).1
          omega
        · rw [min_eq_right hc]
          have h := (hsp u (List.mem_append_left _ hu2) p
            (List.mem_append_right _ (List.mem_singleton_self p))).1
          omega
    have hplainy : ∀ u ∈ cw.words,
        i16Wrap (u.position.y - min 0 p.position.y) =
          u.position.y - min 0 p.position.y := by
      intro u hu2
      apply i16Wrap_eq
      · have h0 := (hpos u hu2).2
        rcases le_total 0 p.position.y with hc | hc
        · rw [min_eq_left hc]
          omega
        · rw [min_eq_right hc]
          omega
      · rcases le_total 0 p.position.y with hc | hc
        · rw [min_eq_left hc]
          have := (hub u hu2).2
          omega
        · rw [min_eq_right hc]
          have h := (hsp u (List.mem_append_left _ hu2) p
            (List.mem_append_right _ (List.mem_singleton_self p))).2
          omega
    have hmapplain :
        List.map (fun w => (⟨⟨i16Wrap (w.position.x - min 0 p.position.x),
            i16Wrap (w.position.y - min 0 p.position.y)⟩, w.direction, w.value⟩ :
          PlacedWord α)) cw.words =
        List.map (fun w => (⟨⟨w.position.x - min 0 p.position.x,
            w.position.y - min 0 p.position.y⟩, w.direction, w.value⟩ :
          PlacedWord α)) cw.words := by
      apply List.map_congr_left
      intro u hu2
      rw [hplainx u hu2, hplainy u hu2]
    rw [hmapplain, crossword_normalize_eq]
    have hm2x : List.foldl (fun m u => min m u.position.x) 32767
        (List.map (fun w => (⟨⟨w.position.x - min 0 p.position.x,
            w.position.y - min 0 p.position.y⟩, w.direction, w.value⟩ : PlacedWord α))
          cw.words) = -(min 0 p.position.x) := by
      apply foldl_min_eq
      · rcases le_total 0 p.position.x with hc | hc
        · rw [min_eq_left hc]
          norm_num
        · rw [min_eq_right hc]
          omega
      · intro b hb
        rw [List.mem_map] at hb
        obtain ⟨w, hw, rfl⟩ := hb
        have h0 := (hpos w hw).1
        show -(min 0 p.position.x) ≤ w.position.x - min 0 p.position.x
        linarith
      · refine ⟨_, List.mem_map_of_mem _ hwx, ?_⟩
        show wx.position.x - min 0 p.position.x = -(min 0 p.position.x)
        rw [hwx0]
        ring
    have hm2y : List.foldl (fun m u => min m u.position.y) 32767
        (List.map (fun w => (⟨⟨w.position.x - min 0 p.position.x,
            w.position.y - min 0 p.position.y⟩, w.direction, w.value⟩ : PlacedWord α))
          cw.words) = -(min 0 p.position.y) := by
      apply foldl_min_eq
      · rcases le_total 0 p.position.y with hc | hc
        · rw [min_eq_left hc]
          norm_num
        · rw [min_eq_right hc]
          omega
      · intro b hb
        rw [List.mem_map] at hb
        obtain ⟨w, hw, rfl⟩ := hb
        have h0 := (hpos w hw).2
        show -(min 0 p.position.y) ≤ w.position.y - min 0 p.position.y
        linarith
      · refine ⟨_, List.mem_map_of_mem _ hwy, ?_⟩
        show wy.position.y - min 0 p.position.y = -(min 0 p.position.y)
        rw [hwy0]
        ring
    rw [hm2x, hm2y]
    simp only [List.map_map]
    refine Eq.trans ?_
      (rfl : (⟨cw.words, cw.word_compatibility_settings⟩ : Crossword α) = cw)
    congr 1
    refine Eq.trans (List.map_congr_left ?_) (List.map_id _)
    intro w hw
    have hx1' : (0 : Int) ≤ w.position.x := (hpos w hw).1
    have hx2' : w.position.x ≤ 32767 := (hub w hw).1
    have hy1' : (0 : Int) ≤ w.position.y := (hpos w hw).2
    have hy2' : w.position.y ≤ 32767 := (hub w hw).2
    simp only [Function.comp, id]
    obtain ⟨⟨wxv, wyv⟩, wd, wv⟩ := w
    simp only [PlacedWord.mk.injEq, Position.mk.injEq]
    refine ⟨⟨?_, ?_⟩, trivial, trivial⟩
    · have harg : wxv - min 0 p.position.x - -(min 0 p.position.x) = wxv := by ring
      rw [harg]
      exact i16Wrap_eq (le_trans (by norm_num) hx1') hx2'
    · have harg : wyv - min 0 p.position.y - -(min 0 p.position.y) = wyv := by ring
      rw [harg]
      exact i16Wrap_eq (le_trans (by norm_num) hy1') hy2'

theorem add_then_remove_witness :
    (((⟨[⟨⟨0, 0⟩, Direction.Right, [0, 1]⟩], WordCompatibilitySettings.default⟩ :
        Crossword Nat).add_word
          ⟨⟨0, 0⟩, Direction.Down, [0, 2]⟩).1.remove_word [0, 2]).1 =
      ⟨[⟨⟨0, 0⟩, Direction.Right, [0, 1]⟩], WordCompatibilitySettings.default⟩ :=
  add_then_remove
    (⟨[⟨⟨0, 0⟩, Direction.Right, [0, 1]⟩], WordCompatibilitySettings.default⟩ :
      Crossword Nat) ⟨⟨0, 0⟩, Direction.Down, [0, 2]⟩
    (by unfold Crossword.isNormalized; decide)
    (by decide) (by decide) (by decide) (by decide) (by decide) (by decide)

/-- A word of `other` is matched in `self` with offset `off`: the word found
by value has the same direction and position difference `off`. -/
def Crossword.matchedAt {α : Type} [DecidableEq α]
    (self : Crossword α) (off : Int × Int) (ow : PlacedWord α) : Prop :=
  ∃ sw, self.find_word ow.value = some sw ∧ sw.direction = ow.direction ∧
    (sw.position.x - ow.position.x, sw.position.y - ow.position.y) = off

theorem containsAux_some_iff {α : Type} [DecidableEq α]
    (self : Crossword α) (rest : List (PlacedWord α)) (off : Int × Int) :
    self.containsAux rest (some off) = true ↔
      ∀ ow ∈ rest, self.matchedAt off ow := by
  induction rest with
  | nil => simp [Crossword.containsAux]
  | cons ow rest ih =>
    simp only [Crossword.containsAux]
    cases hf : self.find_word ow.value with
    | none =>
      simp only [Bool.false_eq_true, false_iff]
      intro h
      obtain ⟨sw, hsw, -, -⟩ := h ow (List.mem_cons_self _ _)
      rw [hf] at hsw
      exact Option.noConfusion hsw
    | some cur =>
      dsimp only
      by_cases hd : cur.direction = ow.direction
      · rw [if_neg (by simpa using hd)]
        by_cases ho : off = (cur.position.x - ow.position.x, cur.position.y - ow.position.y)
        · rw [if_neg (by simpa using ho)]
          rw [ih]
          constructor
          · intro h
            intro u hu
            rcases List.mem_cons.mp hu with rfl | hu
            · exact ⟨cur, hf, hd, ho.symm⟩
            · exact h u hu
          · intro h u hu
            exact h u (List.mem_cons_of_mem _ hu)
        · rw [if_pos (by simpa using ho)]
          simp only [Bool.false_eq_true, false_iff]
          intro h
          obtain ⟨sw, hsw, -, hoff⟩ := h ow (List.mem_cons_self _ _)
          rw [hf] at hsw
          obtain rfl := Option.some.inj hsw
          exact ho hoff.symm
      · rw [if_pos (by simpa using hd)]
        simp only [Bool.false_eq_true, false_iff]
        intro h
        obtain ⟨sw, hsw, hdir, -⟩ := h ow (List.mem_cons_self _ _)
        rw [hf] at hsw
        obtain rfl := Option.some.inj hsw
        exact hd hdir

theorem containsAux_none_iff {α : Type} [DecidableEq α]
    (self : Crossword α) (l : List (PlacedWord α)) :
    self.containsAux l none = true ↔
      ∃ off, ∀ ow ∈ l, self.matchedAt off ow := by
  cases l with
  | nil =>
    simp only [Crossword.containsAux, true_iff]
    exact ⟨(0, 0), by simp⟩
  | cons ow rest =>
    simp only [Crossword.containsAux]
    cases hf : self.find_word ow.value with
    | none =>
      simp only [Bool.false_eq_true, false_iff]
      intro ⟨off, h⟩
      obtain ⟨sw, hsw, -, -⟩ := h ow (List.mem_cons_self _ _)
      rw [hf] at hsw
      exact Option.noConfusion hsw
    | some cur =>
      dsimp only
      by_cases hd : cur.direction = ow.direction
      · rw [if_neg (by simpa using hd)]
        rw [containsAux_some_iff]
        constructor
        · intro h
          refine ⟨(cur.position.x - ow.position.x, cur.position.y - ow.position.y), ?_⟩
          intro u hu
          rcases List.mem_cons.mp hu with rfl | hu
          · exact ⟨cur, hf, hd, rfl⟩
          · exact h u hu
        · intro ⟨off, h⟩ u hu
          obtain ⟨sw, hsw, -, hoff⟩ := h ow (List.mem_cons_self _ _)
          rw [hf] at hsw
          obtain rfl := Option.some.inj hsw
          rw [hoff]
          exact h u (List.mem_cons_of_mem _ hu)
      · rw [if_pos (by simpa using hd)]
        simp only [Bool.false_eq_true, false_iff]
        intro ⟨off, h⟩
        obtain ⟨sw, hsw, hdir, -⟩ := h ow (List.mem_cons_self _ _)
        rw [hf] at hsw
        obtain rfl := Option.some.inj hsw
        exact hd hdir

theorem find?_value_pairwise {α : Type} [DecidableEq α]
    (l : List (PlacedWord α))
    (hpw : List.Pairwise (fun a b => a.value ≠ b.value) l)
    (w : PlacedWord α) (hw : w ∈ l) :
    l.find? (fun u => decide (u.value = w.value)) = some w := by
  induction l with
  | nil => exact absurd hw (List.not_mem_nil w)
  | cons a t ih =>
    obtain ⟨ha, hpt⟩ := List.pairwise_cons.mp hpw
    rcases List.mem_cons.mp hw with rfl | hw'
    · simp [List.find?]
    · have hne : ¬ a.value = w.value := ha w hw'
      simp only [List.find?_cons, decide_eq_false hne]
      exact ih hpt hw'

/-- C7: `contains_crossword` returns false when `other` has more words than
`self`; otherwise it returns true iff every word of `other` is found in
`self` by value with the same direction and with one common position offset
across all matched words; consequently every layout with pairwise-distinct
values (the uniqueness invariant) contains itself. -/
theorem contains_crossword_spec {α : Type} [DecidableEq α]
    (self other : Crossword α) :
    (other.words.length > self.words.length →
       self.contains_crossword other = false) ∧
    (self.contains_crossword other = true ↔
       (other.words.length ≤ self.words.length ∧
        ∃ off, ∀ ow ∈ other.words, self.matchedAt off ow)) ∧
    (List.Pairwise (fun a b => a.value ≠ b.value) self.words →
       self.contains_crossword self = true) := by
  refine ⟨?_, ?_, ?_⟩
  · intro hlen
    unfold Crossword.contains_crossword
    rw [if_pos hlen]
  · by_cases hlen : other.words.length > self.words.length
    · unfold Crossword.contains_crossword
      rw [if_pos hlen]
      simp only [Bool.false_eq_true, false_iff]
      rintro ⟨h, -⟩
      omega
    · unfold Crossword.contains_crossword
      rw [if_neg hlen]
      rw [containsAux_none_iff]
      constructor
      · intro h
        exact ⟨by omega, h⟩
      · rintro ⟨-, h⟩
        exact h
  · intro hpw
    unfold Crossword.contains_crossword
    rw [if_neg (by omega)]
    rw [containsAux_none_iff]
    refine ⟨(0, 0), ?_⟩
    intro w hw
    refine ⟨w, ?_, rfl, by simp⟩
    unfold Crossword.find_word
    exact find?_value_pairwise self.words hpw w hw

theorem contains_crossword_spec_witness :
    ((Crossword.new WordCompatibilitySettings.default : Crossword Nat).contains_crossword
        ⟨[⟨⟨0, 0⟩, Direction.Right, [0]⟩], WordCompatibilitySettings.default⟩ = false) ∧
    ((⟨[⟨⟨0, 0⟩, Direction.Right, [0, 1]⟩, ⟨⟨0, 0⟩, Direction.Down, [0, 2]⟩],
        WordCompatibilitySettings.default⟩ : Crossword Nat).contains_crossword
      ⟨[⟨⟨0, 0⟩, Direction.Right, [0, 1]⟩, ⟨⟨0, 0⟩, Direction.Down, [0, 2]⟩],
        WordCompatibilitySettings.default⟩ = true) :=
  ⟨(contains_crossword_spec (Crossword.new WordCompatibilitySettings.default)
      ⟨[⟨⟨0, 0⟩, Direction.Right, [0]⟩], WordCompatibilitySettings.default⟩).1
      (by decide),
   (contains_crossword_spec
      (⟨[⟨⟨0, 0⟩, Direction.Right, [0, 1]⟩, ⟨⟨0, 0⟩, Direction.Down, [0, 2]⟩],
        WordCompatibilitySettings.default⟩ : Crossword Nat)
      (⟨[⟨⟨0, 0⟩, Direction.Right, [0, 1]⟩, ⟨⟨0, 0⟩, Direction.Down, [0, 2]⟩],
        WordCompatibilitySettings.default⟩ : Crossword Nat)).2.2 (by decide)⟩

theorem foldl_preserve {σ β : Type} (P : σ → Prop) {f : σ → β → σ}
    {l : List β} {init : σ}
    (h0 : P init) (hstep : ∀ s, P s → ∀ b ∈ l, P (f s b)) : P (l.foldl f init) := by
  induction l generalizing init with
  | nil => simpa using h0
  | cons a t ih =>
    simp only [List.foldl_cons]
    exact ih (hstep init h0 a (List.mem_cons_self a t))
      (fun s hs b hb => hstep s hs b (List.mem_cons_of_mem a hb))

theorem sortedEmitAux_good {α : Type} [DecidableEq α] (cs : CrosswordSettings) :
    ∀ (fuel : Nat) (cw : Crossword α) (remained : List (Word α))
      (bases : List (Crossword α)),
      ∀ x ∈ (sortedEmitAux cs fuel cw remained bases).1,
        cs.check_nonrecoverables_constraints x = true ∧
        cs.check_recoverable_constraints x = true := by
  intro fuel
  induction fuel with
  | zero =>
    intro cw remained bases x hx
    simp [sortedEmitAux] at hx
  | succ fuel ih =>
    intro cw remained bases x hx
    unfold sortedEmitAux at hx
    by_cases h1 : cs.check_nonrecoverables_constraints cw = false
    · rw [if_pos h1] at hx
      simp at hx
    · rw [if_neg h1] at hx
      have h1' : cs.check_nonrecoverables_constraints cw = true := by
        cases h : cs.check_nonrecoverables_constraints cw
        · exact absurd h h1
        · rfl
      by_cases h2 : (bases.any fun b => cw.contains_crossword b) = true
      · rw [if_pos h2] at hx
        simp at hx
      · rw [if_neg h2] at hx
        by_cases h3 : remained.isEmpty = true
        · rw [if_pos h3] at hx
          by_cases h4 : cs.check_recoverable_constraints cw = true
          · rw [if_pos h4] at hx
            rcases List.mem_singleton.mp hx with rfl
            exact ⟨h1', h4⟩
          · rw [if_neg h4] at hx
            simp at hx
        · rw [if_neg h3] at hx
          refine (foldl_preserve
            (fun acc : List (Crossword α) × List (Crossword α) =>
              ∀ y ∈ acc.1, cs.check_nonrecoverables_constraints y = true ∧
                cs.check_recoverable_constraints y = true) ?_ ?_) x hx
          · intro y hy
            simp at hy
          · intro s hs w hw
            dsimp only
            refine foldl_preserve
              (fun acc : List (Crossword α) × List (Crossword α) =>
                ∀ y ∈ acc.1, cs.check_nonrecoverables_constraints y = true ∧
                  cs.check_recoverable_constraints y = true) hs ?_
            intro s' hs' step hstep'
            dsimp only
            intro z hz
            rcases List.mem_append.mp hz with h | h
            · exact hs' z h
            · exact ih _ _ _ z h

/-- C8: every layout emitted by the sorted search strategy satisfies every
constraint of the configured set: non-recoverable constraints are checked at
each recursion node before descending and recoverable constraints at the
leaf before emission, so an emitted layout passes both
`check_nonrecoverables_constraints` and `check_recoverable_constraints`. -/
theorem sorted_generator_constraints {α : Type} [DecidableEq α]
    (gs : CrosswordGeneratorSettings) (ws : List (Word α)) :
    ∀ cw ∈ sortedGeneratorEmitted gs ws,
      gs.crossword_settings.check_nonrecoverables_constraints cw = true ∧
      gs.crossword_settings.check_recoverable_constraints cw = true := by
  intro cw hcw
  exact sortedEmitAux_good gs.crossword_settings _ _ _ _ cw hcw

theorem sorted_generator_constraints_witness :
    CrosswordSettings.check_nonrecoverables_constraints
        ⟨[CrosswordConstraint.MaxLength 5]⟩
        (⟨[⟨⟨0, 0⟩, Direction.Right, [0, 1]⟩], WordCompatibilitySettings.default⟩ :
          Crossword Nat) = true ∧
    CrosswordSettings.check_recoverable_constraints
        ⟨[CrosswordConstraint.MaxLength 5]⟩
        (⟨[⟨⟨0, 0⟩, Direction.Right, [0, 1]⟩], WordCompatibilitySettings.default⟩ :
          Crossword Nat) = true :=
  sorted_generator_constraints
    ⟨⟨[CrosswordConstraint.MaxLength 5]⟩, WordCompatibilitySettings.default⟩
    [(⟨[0, 1], none⟩ : Word Nat)]
    (⟨[⟨⟨0, 0⟩, Direction.Right, [0, 1]⟩], WordCompatibilitySettings.default⟩ :
      Crossword Nat)
    (by decide)

/-- C5 counterexample: the layout holding `[0]` at `(0,0)` and `[1]` at
`(1000,0)` is normalized with `i16` positions, and adding the compatible word
`[2]` at `(-32000,0)` succeeds; but the normalize shift `1000 - (-32000) =
33000` overflows `i16` and wraps to `-32536`, so the resulting layout has a
negative minimum x — the normalization invariant fails. -/
theorem normalization_invariant_counterexample :
    ((⟨[⟨⟨0, 0⟩, Direction.Right, [0]⟩, ⟨⟨1000, 0⟩, Direction.Right, [1]⟩],
        WordCompatibilitySettings.default⟩ : Crossword Nat).inI16Range ∧
     (⟨[⟨⟨0, 0⟩, Direction.Right, [0]⟩, ⟨⟨1000, 0⟩, Direction.Right, [1]⟩],
        WordCompatibilitySettings.default⟩ : Crossword Nat).isNormalized ∧
     (⟨⟨-32000, 0⟩, Direction.Right, [2]⟩ : PlacedWord Nat).posInI16Range ∧
     ((⟨[⟨⟨0, 0⟩, Direction.Right, [0]⟩, ⟨⟨1000, 0⟩, Direction.Right, [1]⟩],
        WordCompatibilitySettings.default⟩ : Crossword Nat).add_word
          ⟨⟨-32000, 0⟩, Direction.Right, [2]⟩).2 = none) ∧
    ¬ ((⟨[⟨⟨0, 0⟩, Direction.Right, [0]⟩, ⟨⟨1000, 0⟩, Direction.Right, [1]⟩],
        WordCompatibilitySettings.default⟩ : Crossword Nat).add_word
          ⟨⟨-32000, 0⟩, Direction.Right, [2]⟩).1.isNormalized := by
  unfold Crossword.inI16Range Crossword.isNormalized PlacedWord.posInI16Range
  decide

/-- C6 counterexample: on the normalized layout `{[0] at (0,0), [1] at
(1000,0)}`, adding the compatible word `[2]` at `(-32767,0)` succeeds, but the
normalize shift of `[1]` wraps (`33767` overflows `i16` to `-31769`), and the
subsequent remove-and-renormalize yields `{[0] at (-1000,0), [1] at (0,0)}`,
which differs from the original layout — the round trip fails. -/
theorem add_then_remove_counterexample :
    ((⟨[⟨⟨0, 0⟩, Direction.Right, [0]⟩, ⟨⟨1000, 0⟩, Direction.Right, [1]⟩],
        WordCompatibilitySettings.default⟩ : Crossword Nat).isNormalized ∧
     (⟨[⟨⟨0, 0⟩, Direction.Right, [0]⟩, ⟨⟨1000, 0⟩, Direction.Right, [1]⟩],
        WordCompatibilitySettings.default⟩ : Crossword Nat).inI16Range ∧
     (⟨⟨-32767, 0⟩, Direction.Right, [2]⟩ : PlacedWord Nat).posInI16Range ∧
     ((⟨[⟨⟨0, 0⟩, Direction.Right, [0]⟩, ⟨⟨1000, 0⟩, Direction.Right, [1]⟩],
        WordCompatibilitySettings.default⟩ : Crossword Nat).add_word
          ⟨⟨-32767, 0⟩, Direction.Right, [2]⟩).2 = none) ∧
    (((⟨[⟨⟨0, 0⟩, Direction.Right, [0]⟩, ⟨⟨1000, 0⟩, Direction.Right, [1]⟩],
        WordCompatibilitySettings.default⟩ : Crossword Nat).add_word
          ⟨⟨-32767, 0⟩, Direction.Right, [2]⟩).1.remove_word [2]).1 ≠
      (⟨[⟨⟨0, 0⟩, Direction.Right, [0]⟩, ⟨⟨1000, 0⟩, Direction.Right, [1]⟩],
        WordCompatibilitySettings.default⟩ : Crossword Nat) := by
  unfold Crossword.isNormalized Crossword.inI16Range PlacedWord.posInI16Range
  decide
